import Mathlib

/-!
Verification of the Cloudflare chat-agent worker (`src/server.ts`).

The TypeScript source is shallowly embedded below. Strings are Lean
`String`s; the helper functions that the worker defines over JavaScript
strings (`chunkByWords`, `isImageDataUrl`, `trim`) are modelled at the
level of the underlying character lists, so that every definition is
executable. The Workers-AI binding `env.AI.run` is abstracted as an
oracle `AiCall → Except String String`: an `Except.error` models a
thrown exception carrying the error message, an `Except.ok` models a
successful call together with the reply text extracted by the
response-field sniffing code. JavaScript `\s` is modelled by
`Char.isWhitespace` (the ASCII whitespace characters).
-/

set_option autoImplicit false

namespace AgentChat

/-- Role of a persisted chat turn (`"user" | "assistant"` in the source). -/
inductive Role where
  | user
  | assistant
deriving DecidableEq, Repr

/-- The role string used when rendering a turn for the model API. -/
def Role.toStr : Role → String
  | .user => "user"
  | .assistant => "assistant"

/-- Embedding of `ChatMessage` from `server.ts`: an optional image data
URL is present only when the client attached a valid one. -/
structure ChatMessage where
  role : Role
  content : String
  imageDataUrl : Option String := none
deriving DecidableEq, Repr

/-- Embedding of `ChatState`. -/
structure ChatState where
  messages : List ChatMessage
deriving DecidableEq, Repr

/-! ### Word chunking (`chunkByWords`) -/

/-- `text.split(/\s+/).filter(Boolean)` at the character-list level:
maximal runs of non-whitespace characters, in order. -/
def wordsOf : List Char → List (List Char)
  | [] => []
  | c :: cs =>
    if c.isWhitespace then wordsOf cs
    else (c :: cs.takeWhile (fun d => !d.isWhitespace))
        :: wordsOf (cs.dropWhile (fun d => !d.isWhitespace))
termination_by cs => cs.length
decreasing_by
  · simp only [List.length_cons]; omega
  · simp only [List.length_cons]
    have hle : ∀ (p : Char → Bool) (l : List Char), (l.dropWhile p).length ≤ l.length := by
      intro p l
      induction l with
      | nil => simp [List.dropWhile]
      | cons a l ih =>
        simp only [List.dropWhile]
        cases p a
        · simp
        · simp only [List.length_cons]
          omega
    exact Nat.lt_succ_of_le (hle _ cs)

/-- `words.join(" ")` at the character-list level. -/
def joinSpace : List (List Char) → List Char
  | [] => []
  | [w] => w
  | w :: v :: ws => w ++ ' ' :: joinSpace (v :: ws)

/-- The chunk-building loop of `chunkByWords` for group size `k + 1`:
each chunk is the next group of up to `k + 1` words joined by single
spaces, with a trailing space appended. -/
def chunkGroups (k : Nat) : List (List Char) → List (List Char)
  | [] => []
  | w :: ws => (joinSpace ((w :: ws).take (k + 1)) ++ [' ']) :: chunkGroups k (ws.drop k)
termination_by ws => ws.length
decreasing_by
  simp only [List.length_cons, List.length_drop]
  omega

/-- Embedding of `chunkByWords`. The source's loop would not terminate
for `wordsPerChunk = 0`; it is only ever called with the (default)
positive size `3`, and the embedding models positive sizes only. -/
def chunkByWords (text : String) (wordsPerChunk : Nat := 3) : List String :=
  match wordsPerChunk with
  | 0 => []
  | k + 1 =>
    let chunks := (chunkGroups k (wordsOf text.data)).map String.mk
    if chunks.isEmpty then [text] else chunks

/-! ### String helpers -/

/-- JavaScript `String.prototype.trim` at the character-list level:
strip leading and trailing whitespace. -/
def trimWs (s : String) : String :=
  String.mk (((s.data.dropWhile Char.isWhitespace).reverse.dropWhile Char.isWhitespace).reverse)

/-- Boolean infix test on character lists. -/
def isInfixList (pat : List Char) : List Char → Bool
  | [] => pat.isEmpty
  | c :: cs => pat.isPrefixOf (c :: cs) || isInfixList pat cs

/-- JavaScript `String.prototype.includes`: substring occurrence. -/
def containsSubstring (s pat : String) : Bool :=
  isInfixList pat.data s.data

/-- A character matched by the regex class `[a-zA-Z0-9.+-]`. -/
def isSubtypeChar (c : Char) : Bool :=
  c.isAlpha || c.isDigit || c == '.' || c == '+' || c == '-'

/-- Embedding of `isImageDataUrl`: the regex
`^data:image\/[a-zA-Z0-9.+-]+;base64,` anchored at the start. Since `;`
is not in the bracket class, greedy matching is equivalent to taking the
maximal run of class characters and then requiring `;base64,`. -/
def isImageDataUrl (value : String) : Bool :=
  let pre := "data:image/".data
  pre.isPrefixOf value.data &&
    (let rest := value.data.drop pre.length
     !(rest.takeWhile isSubtypeChar).isEmpty &&
       ";base64,".data.isPrefixOf (rest.dropWhile isSubtypeChar))

/-! ### Model API messages -/

/-- A message rendered for the model API: either a plain
`{ role, content }` object, or the multi-part text + image structure
built for image-bearing user turns. -/
inductive AiMsg where
  | plain (role : String) (content : String)
  | textImage (text : String) (imageUrl : String)
deriving DecidableEq, Repr

/-- Embedding of `toAiMessage`: an image-bearing user turn becomes a
multi-part text + image message (with a placeholder text when the
content is empty); everything else is rendered as plain text. -/
def toAiMessage (message : ChatMessage) : AiMsg :=
  match message.role, message.imageDataUrl with
  | .user, some url =>
    if url = "" then .plain "user" message.content
    else .textImage (if message.content = "" then "Please describe this image." else message.content) url
  | role, _ => .plain role.toStr message.content

/-- Embedding of `toTextOnlyMessage`: always plain text, dropping any
image field. -/
def toTextOnlyMessage (message : ChatMessage) : AiMsg :=
  .plain message.role.toStr message.content

def TEXT_MODEL : String := "@cf/meta/llama-3.3-70b-instruct-fp8-fast"

def VISION_MODEL : String := "@cf/meta/llama-3.2-11b-vision-instruct"

def VISION_FALLBACK_MODEL : String := "@cf/llava-hf/llava-1.5-7b-hf"

/-- The request shape passed to `env.AI.run`: either a chat-style
message list with a `max_tokens` ceiling, or the fallback's single
flattened prompt plus raw image. -/
inductive AiRequest where
  | chat (messages : List AiMsg) (maxTokens : Nat)
  | promptImage (prompt : String) (image : String)
deriving DecidableEq, Repr

/-- One invocation of `env.AI.run`: model identifier plus request. -/
structure AiCall where
  model : String
  request : AiRequest
deriving DecidableEq, Repr

/-- Abstraction of `env.AI.run` plus the response-field extraction:
`Except.error msg` models a thrown exception with message `msg`,
`Except.ok text` a successful call whose extracted reply text is
`text`. -/
def AiOracle : Type := AiCall → Except String String

/-! ### Wire protocol -/

/-- A JSON value sitting in a payload field, as far as the handler's
`typeof`-checks observe it: a string, or anything else. -/
inductive JsVal where
  | str (s : String)
  | nonString
deriving DecidableEq, Repr

/-- A successfully parsed inbound JSON payload, as observed by the
handler's discriminated-`type` checks. `other` covers every parsed
value whose `type` field is neither `"reset"` nor `"user"`. -/
inductive Payload where
  | reset
  | user (content : Option JsVal) (imageDataUrl : Option JsVal)
  | other
deriving DecidableEq, Repr

/-- Outbound WebSocket frames sent by the handler. -/
inductive Outbound where
  | history (messages : List ChatMessage)
  | assistantStart
  | assistantChunk (content : String)
  | assistantDone (content : String)
  | assistant (content : String)
deriving DecidableEq, Repr

/-- The observable effects of one `onMessage` invocation: the successive
`setState` payloads (in order), the outbound frames (in order), and the
`env.AI.run` calls made (in order). -/
structure StepResult where
  sets : List (List ChatMessage)
  out : List Outbound
  calls : List AiCall
deriving DecidableEq, Repr

/-- The persisted state after a step: the last `setState` wins (or the
prior state if none happened). -/
def finalState (st : ChatState) (r : StepResult) : ChatState :=
  { messages := r.sets.getLastD st.messages }

/-- `arr.slice(-n)`: the most recent `min n arr.length` elements, in
original order. -/
def sliceLast {α : Type} (n : Nat) (l : List α) : List α :=
  l.drop (l.length - n)

/-! ### The handler -/

/-- Embedding of `onConnect`: send the most recent 50 turns as one
`history` frame; the state is untouched. -/
def onConnect (st : ChatState) : ChatState × List Outbound :=
  (st, [Outbound.history (sliceLast 50 st.messages)])

/-- The fixed system instruction (`system` in the source). -/
def systemPrompt : String :=
  String.intercalate " "
    ["You are a helpful assistant running on Cloudflare.",
     "Be concise, actionable, and friendly.",
     "If you do not know something, say so and suggest next steps."]

def genericErrorText : String :=
  "I hit an AI error. Please try again in a moment."

def licenseErrorText : String :=
  "Image analysis is currently unavailable for this account. For Llama 3.2 vision, run one prompt with text \x27agree\x27 in Workers AI to accept the license, then try again."

/-- The substring whose presence in the error message marks the
vision-license condition. -/
def licenseMarker : String :=
  "submit the prompt \x27agree\x27"

/-- Validation of the payload's `imageDataUrl` field:
`isImageDataUrl(payload.imageDataUrl) ? payload.imageDataUrl :
undefined`. -/
def validatedImage : Option JsVal → Option String
  | some (JsVal.str u) => if isImageDataUrl u then some u else none
  | _ => none

/-- The frames emitted after a successful model call: start marker, the
word chunks, done marker and plain assistant frame, the latter two
carrying the full text. -/
def streamOf (finalText : String) : List Outbound :=
  Outbound.assistantStart :: (chunkByWords finalText 3).map Outbound.assistantChunk
    ++ [Outbound.assistantDone finalText, Outbound.assistant finalText]

/-- The tail of `onMessage` after a reply text was obtained: append one
assistant turn to the captured `nextMessages`, persist, stream. -/
def successResult (nextMessages : List ChatMessage) (calls : List AiCall)
    (assistantText : String) : StepResult :=
  { sets := [nextMessages,
      nextMessages ++ [{ role := Role.assistant, content := assistantText, imageDataUrl := none }]],
    out := streamOf assistantText,
    calls := calls }

/-- The user `ChatTurn` built from a validated `user` payload: trimmed
text, or the fixed placeholder when the text is empty; the validated
image attached when present. -/
def userTurn (content : String) (imageField : Option JsVal) : ChatMessage :=
  { role := Role.user,
    content := if trimWs content = "" then "Describe this image." else trimWs content,
    imageDataUrl := validatedImage imageField }

/-- The primary `env.AI.run` invocation for a `user` payload: vision
model with mixed rendering when an image is attached, text model with
plain-text rendering otherwise; system instruction prepended, context
bounded to the most recent 12 turns, `max_tokens` 512. -/
def primaryCall (st : ChatState) (content : String) (imageField : Option JsVal) : AiCall :=
  let context := sliceLast 12 (st.messages ++ [userTurn content imageField])
  { model := if (validatedImage imageField).isSome then VISION_MODEL else TEXT_MODEL,
    request := AiRequest.chat
      (AiMsg.plain "system" systemPrompt ::
        (if (validatedImage imageField).isSome then context.map toAiMessage
         else context.map toTextOnlyMessage))
      512 }

/-- The fallback `env.AI.run` invocation: the secondary vision model
with a single flattened prompt (system instruction plus user text, with
the placeholder when the text is empty) and the raw image. -/
def fallbackCall (content : String) (u : String) : AiCall :=
  { model := VISION_FALLBACK_MODEL,
    request := AiRequest.promptImage
      (systemPrompt ++ "\n\nUser request: " ++
        (if trimWs content = "" then "Describe this image." else trimWs content)) u }

/-- The abandoned-turn result: nothing persisted beyond the user turn,
and a fixed text sent as both a done frame and a plain assistant
frame. -/
def errorResult (nextMessages : List ChatMessage) (calls : List AiCall) (text : String) : StepResult :=
  { sets := [nextMessages],
    out := [Outbound.assistantDone text, Outbound.assistant text],
    calls := calls }

/-- The `type = "user"` branch of `onMessage`. -/
def handleUser (st : ChatState) (content : String) (imageField : Option JsVal)
    (oracle : AiOracle) : StepResult :=
  if trimWs content = "" ∧ validatedImage imageField = none then
    { sets := [], out := [], calls := [] }
  else
    let nextMessages := st.messages ++ [userTurn content imageField]
    match oracle (primaryCall st content imageField) with
    | Except.ok text => successResult nextMessages [primaryCall st content imageField] text
    | Except.error msg =>
      match validatedImage imageField with
      | some u =>
        if containsSubstring msg licenseMarker then
          match oracle (fallbackCall content u) with
          | Except.ok text =>
            successResult nextMessages [primaryCall st content imageField, fallbackCall content u] text
          | Except.error _ =>
            errorResult nextMessages [primaryCall st content imageField, fallbackCall content u]
              licenseErrorText
        else
          errorResult nextMessages [primaryCall st content imageField] genericErrorText
      | none =>
        errorResult nextMessages [primaryCall st content imageField] genericErrorText

/-- Embedding of `onMessage`. `payload = none` models a frame whose
JSON failed to parse. -/
def onMessage (st : ChatState) (payload : Option Payload) (oracle : AiOracle) : StepResult :=
  match payload with
  | none => { sets := [], out := [], calls := [] }
  | some Payload.reset => { sets := [[]], out := [Outbound.history []], calls := [] }
  | some Payload.other => { sets := [], out := [], calls := [] }
  | some (Payload.user contentField imageField) =>
    match contentField with
    | some (JsVal.str content) => handleUser st content imageField oracle
    | _ => { sets := [], out := [], calls := [] }

/-! ### Derived notions used by the properties -/

/-- A payload that passes `onMessage`'s validation of a `user` message
and therefore appends a user turn: `type = "user"`, string `content`,
and trimmed text or a valid image present. -/
def isValidUser : Option Payload → Bool
  | some (Payload.user (some (JsVal.str content)) imageField) =>
    !(trimWs content == "" && (validatedImage imageField).isNone)
  | _ => false

/-- Process a sequence of inbound frames, threading the persisted state. -/
def processAll (payloads : List (Option Payload)) (oracle : AiOracle) (st : ChatState) : ChatState :=
  match payloads with
  | [] => st
  | p :: ps => processAll ps oracle (finalState st (onMessage st p oracle))

/-- Number of persisted turns with the given role. -/
def countRole (r : Role) (l : List ChatMessage) : Nat :=
  (l.filter (fun m => m.role == r)).length

/-- The storage contents after the handler finishes when arbitrary
concurrent writes (for example a reset writing `[]`) land between the
handler's first persist and its remaining ones. -/
def storageAfter (st : ChatState) (r : StepResult) (concurrent : List (List ChatMessage)) : List ChatMessage :=
  (r.sets.take 1 ++ concurrent ++ r.sets.drop 1).getLastD st.messages

/-- True for plain-text rendered model messages (no image part). -/
def AiMsg.isPlain : AiMsg → Bool
  | .plain _ _ => true
  | .textImage _ _ => false

/-- Fixture oracle that always succeeds with reply `t`. -/
def okOracle (t : String) : AiOracle := fun _ => Except.ok t

/-- Fixture oracle that always throws with message `msg`. -/
def errOracle (msg : String) : AiOracle := fun _ => Except.error msg

/-- A fixture state whose earlier turn carries an image. -/
def imageHistoryState : ChatState :=
  { messages := [{ role := Role.user, content := "earlier", imageDataUrl := some "data:image/png;base64,AA" }] }

/-! ### Lemmas about words and chunks -/

theorem takeWhile_append_all {α : Type} {p : α → Bool} {l1 : List α} (l2 : List α)
    (h : ∀ c ∈ l1, p c = true) :
    (l1 ++ l2).takeWhile p = l1 ++ l2.takeWhile p := by
  induction l1 with
  | nil => rfl
  | cons a l ih =>
    have hmem : ∀ c ∈ l, p c = true := fun c hc => h c (List.mem_cons_of_mem a hc)
    simp only [List.cons_append, List.takeWhile_cons,
      h a (List.mem_cons_self a l), if_true, ih hmem]

theorem dropWhile_append_all {α : Type} {p : α → Bool} {l1 : List α} (l2 : List α)
    (h : ∀ c ∈ l1, p c = true) :
    (l1 ++ l2).dropWhile p = l2.dropWhile p := by
  induction l1 with
  | nil => rfl
  | cons a l ih =>
    have hmem : ∀ c ∈ l, p c = true := fun c hc => h c (List.mem_cons_of_mem a hc)
    simp only [List.cons_append, List.dropWhile_cons,
      h a (List.mem_cons_self a l), if_true, ih hmem]

theorem wordsOf_nil : wordsOf [] = [] := by
  rw [wordsOf]

theorem wordsOf_cons_ws {c : Char} (h : c.isWhitespace = true) (cs : List Char) :
    wordsOf (c :: cs) = wordsOf cs := by
  rw [wordsOf]
  simp [h]

theorem wordsOf_word_append {w : List Char} (rest : List Char) (hne : w ≠ [])
    (hclean : ∀ c ∈ w, c.isWhitespace = false) :
    wordsOf (w ++ ' ' :: rest) = w :: wordsOf rest := by
  cases w with
  | nil => exact absurd rfl hne
  | cons c w' =>
    have hc : c.isWhitespace = false := hclean c (by simp)
    have hall : ∀ d ∈ w', (!d.isWhitespace) = true := by
      intro d hd
      simp [hclean d (by simp [hd])]
    rw [List.cons_append, wordsOf]
    simp only [hc, Bool.false_eq_true, if_false]
    rw [takeWhile_append_all _ hall, dropWhile_append_all _ hall]
    have hsp : (' ' :: rest).takeWhile (fun d => !d.isWhitespace) = [] := by
      simp [List.takeWhile_cons]
    have hsp2 : (' ' :: rest).dropWhile (fun d => !d.isWhitespace) = ' ' :: rest := by
      simp [List.dropWhile_cons]
    rw [hsp, hsp2, List.append_nil, wordsOf_cons_ws (by simp) rest]

theorem wordsOf_clean (cs : List Char) :
    ∀ w ∈ wordsOf cs, w ≠ [] ∧ ∀ c ∈ w, c.isWhitespace = false := by
  induction cs using wordsOf.induct with
  | case1 => simp [wordsOf_nil]
  | case2 c cs h ih =>
    rw [wordsOf_cons_ws h]
    exact ih
  | case3 c cs h ih =>
    rw [wordsOf]
    simp only [h, Bool.false_eq_true, if_false]
    intro w hw
    rcases List.mem_cons.mp hw with rfl | hw
    · refine ⟨by simp, ?_⟩
      intro d hd
      rcases List.mem_cons.mp hd with rfl | hd
      · simpa using h
      · have := List.mem_takeWhile_imp hd
        simpa using this
    · exact ih w hw

theorem joinSpace_space (ws : List (List Char)) (hne : ws ≠ []) :
    joinSpace ws ++ [' '] = (ws.map (fun w => w ++ [' '])).flatten := by
  induction ws with
  | nil => exact absurd rfl hne
  | cons w vs ih =>
    cases vs with
    | nil => simp [joinSpace]
    | cons v vs' =>
      rw [joinSpace, List.map_cons, List.flatten_cons, ← ih (by simp)]
      simp

theorem chunkGroups_nil (k : Nat) : chunkGroups k [] = [] := by
  rw [chunkGroups]

theorem chunkGroups_cons (k : Nat) (w : List Char) (ws : List (List Char)) :
    chunkGroups k (w :: ws) =
      (joinSpace ((w :: ws).take (k + 1)) ++ [' ']) :: chunkGroups k (ws.drop k) := by
  rw [chunkGroups]

theorem chunkGroups_flatten (k : Nat) (ws : List (List Char)) :
    (chunkGroups k ws).flatten = (ws.map (fun w => w ++ [' '])).flatten := by
  induction ws using chunkGroups.induct k with
  | case1 =>
    rw [chunkGroups_nil]
    simp
  | case2 w ws ih =>
    rw [chunkGroups_cons]
    simp only [List.flatten_cons]
    rw [joinSpace_space _ (by simp), ih]
    rw [← List.flatten_append, ← List.map_append]
    have h : (w :: ws).take (k + 1) ++ ws.drop k = w :: ws := by
      simp
    rw [h]

theorem wordsOf_flatten_words (ws : List (List Char))
    (h : ∀ w ∈ ws, w ≠ [] ∧ ∀ c ∈ w, c.isWhitespace = false) :
    wordsOf (ws.map (fun w => w ++ [' '])).flatten = ws := by
  induction ws with
  | nil => simpa using wordsOf_nil
  | cons w vs ih =>
    simp only [List.map_cons, List.flatten_cons]
    have : w ++ [' '] ++ (vs.map (fun w => w ++ [' '])).flatten
        = w ++ ' ' :: (vs.map (fun w => w ++ [' '])).flatten := by simp
    rw [this, wordsOf_word_append _ (h w (by simp)).1 (h w (by simp)).2]
    rw [ih (fun v hv => h v (by simp [hv]))]

theorem data_join (l : List String) :
    (String.join l).data = (l.map String.data).flatten := by
  have key : ∀ (s : String), ((l.foldl (· ++ ·) s)).data = s.data ++ (l.map String.data).flatten := by
    induction l with
    | nil => intro s; simp
    | cons a l ih =>
      intro s
      simp only [List.foldl_cons, List.map_cons, List.flatten_cons]
      rw [ih, String.data_append, List.append_assoc]
  exact key ""

theorem chunkGroups_getElem? (k : Nat) (ws : List (List Char)) (i : Nat) :
    (chunkGroups k ws)[i]? =
      if (k + 1) * i < ws.length
      then some (joinSpace ((ws.drop ((k + 1) * i)).take (k + 1)) ++ [' '])
      else none := by
  induction ws using chunkGroups.induct k generalizing i with
  | case1 =>
    rw [chunkGroups_nil]
    simp
  | case2 w ws ih =>
    rw [chunkGroups_cons]
    cases i with
    | zero => simp
    | succ j =>
      simp only [List.getElem?_cons_succ]
      rw [ih j]
      have hmul : (k + 1) * (j + 1) = (k + 1) * j + k + 1 := by ring
      have hdrop : (ws.drop k).drop ((k + 1) * j) = (w :: ws).drop ((k + 1) * (j + 1)) := by
        rw [List.drop_drop, hmul, List.drop_succ_cons]
        congr 1
        omega
      rw [hdrop]
      have hlen : (ws.drop k).length = ws.length - k := List.length_drop k ws
      by_cases hcond : (k + 1) * j < (ws.drop k).length
      · rw [if_pos hcond, if_pos]
        rw [hlen] at hcond
        simp only [List.length_cons, hmul]
        omega
      · rw [if_neg hcond, if_neg]
        rw [hlen] at hcond
        simp only [List.length_cons, hmul]
        omega

theorem chunkGroups_ne_nil (k : Nat) {ws : List (List Char)} (h : ws ≠ []) :
    chunkGroups k ws ≠ [] := by
  cases ws with
  | nil => exact absurd rfl h
  | cons w ws =>
    rw [chunkGroups_cons]
    simp

/-! ### Path lemmas for the user-message handler -/

theorem onMessage_user (st : ChatState) (content : String) (imageField : Option JsVal)
    (oracle : AiOracle) :
    onMessage st (some (Payload.user (some (JsVal.str content)) imageField)) oracle
      = handleUser st content imageField oracle := rfl

theorem handleUser_ok (st : ChatState) (content : String) (imageField : Option JsVal)
    (oracle : AiOracle) (t : String)
    (h : ¬(trimWs content = "" ∧ validatedImage imageField = none))
    (hok : oracle (primaryCall st content imageField) = Except.ok t) :
    handleUser st content imageField oracle =
      successResult (st.messages ++ [userTurn content imageField])
        [primaryCall st content imageField] t := by
  simp only [handleUser]
  rw [if_neg h, hok]

theorem handleUser_fallback_ok (st : ChatState) (content : String) (imageField : Option JsVal)
    (oracle : AiOracle) (msg u t : String)
    (himg : validatedImage imageField = some u)
    (herr : oracle (primaryCall st content imageField) = Except.error msg)
    (hmark : containsSubstring msg licenseMarker = true)
    (hfok : oracle (fallbackCall content u) = Except.ok t) :
    handleUser st content imageField oracle =
      successResult (st.messages ++ [userTurn content imageField])
        [primaryCall st content imageField, fallbackCall content u] t := by
  have h : ¬(trimWs content = "" ∧ validatedImage imageField = none) := by
    rw [himg]; rintro ⟨-, hc⟩; exact Option.noConfusion hc
  simp only [handleUser]
  rw [if_neg h, herr, himg]
  simp only [hmark, if_true, hfok]

theorem handleUser_fallback_err (st : ChatState) (content : String) (imageField : Option JsVal)
    (oracle : AiOracle) (msg u e : String)
    (himg : validatedImage imageField = some u)
    (herr : oracle (primaryCall st content imageField) = Except.error msg)
    (hmark : containsSubstring msg licenseMarker = true)
    (hferr : oracle (fallbackCall content u) = Except.error e) :
    handleUser st content imageField oracle =
      errorResult (st.messages ++ [userTurn content imageField])
        [primaryCall st content imageField, fallbackCall content u] licenseErrorText := by
  have h : ¬(trimWs content = "" ∧ validatedImage imageField = none) := by
    rw [himg]; rintro ⟨-, hc⟩; exact Option.noConfusion hc
  simp only [handleUser]
  rw [if_neg h, herr, himg]
  simp only [hmark, if_true, hferr]

theorem handleUser_generic_err (st : ChatState) (content : String) (imageField : Option JsVal)
    (oracle : AiOracle) (msg : String)
    (h : ¬(trimWs content = "" ∧ validatedImage imageField = none))
    (herr : oracle (primaryCall st content imageField) = Except.error msg)
    (hno : validatedImage imageField = none ∨ containsSubstring msg licenseMarker = false) :
    handleUser st content imageField oracle =
      errorResult (st.messages ++ [userTurn content imageField])
        [primaryCall st content imageField] genericErrorText := by
  simp only [handleUser]
  rw [if_neg h, herr]
  rcases hno with hv | hm
  · rw [hv]
  · cases hv : validatedImage imageField with
    | none => rfl
    | some u => simp only [hm, Bool.false_eq_true, if_false]

/-! ### Claim theorems -/

/-- C10: for every input string containing at least one
whitespace-delimited word and every positive group size, concatenating
the chunks returned by `chunkByWords` and splitting the result on
whitespace yields exactly the original sequence of words. -/
theorem chunking_preserves_words (text : String) (k : Nat) (hk : 0 < k)
    (hw : wordsOf text.data ≠ []) :
    wordsOf (String.join (chunkByWords text k)).data = wordsOf text.data := by
  obtain ⟨k', rfl⟩ : ∃ k', k = k' + 1 := ⟨k - 1, by omega⟩
  simp only [chunkByWords]
  rw [if_neg (by simp [List.isEmpty_iff, chunkGroups_ne_nil k' hw])]
  rw [data_join, List.map_map]
  have hcomp : (String.data ∘ String.mk) = fun cs => cs := rfl
  rw [hcomp, List.map_id']
  rw [chunkGroups_flatten, wordsOf_flatten_words _ (wordsOf_clean text.data)]

theorem chunking_preserves_words_witness :
    0 < 3 ∧ wordsOf "hello brave new world".data ≠ [] ∧
      wordsOf (String.join (chunkByWords "hello brave new world" 3)).data
        = wordsOf "hello brave new world".data :=
  ⟨by decide, by simp [wordsOf],
    chunking_preserves_words "hello brave new world" 3 (by decide) (by simp [wordsOf])⟩

/-- C4: for every stored history, `onConnect` sends exactly one
`history` message containing the most recent `min 50 length` turns as a
suffix of the stored sequence (hence in original order), and changes no
state. -/
theorem connect_sends_recent_history (st : ChatState) :
    (onConnect st).1 = st ∧
    ∃ l, (onConnect st).2 = [Outbound.history l] ∧
      l.length = min 50 st.messages.length ∧ l <:+ st.messages := by
  refine ⟨rfl, sliceLast 50 st.messages, rfl, ?_, List.drop_suffix _ _⟩
  simp only [sliceLast, List.length_drop]
  omega

/-- C5: for every prior state, a `reset` payload replaces the persisted
sequence with the empty one, sends exactly one `history` frame carrying
an empty list, and performs no model call. -/
theorem reset_clears_history (st : ChatState) (oracle : AiOracle) :
    onMessage st (some Payload.reset) oracle =
      { sets := [[]], out := [Outbound.history []], calls := [] } ∧
    finalState st (onMessage st (some Payload.reset) oracle) = { messages := [] } :=
  ⟨rfl, rfl⟩

/-- C9: for every inbound frame whose text is not valid JSON (modelled
as `payload = none`), `onMessage` sends no outbound frame, makes no
model call, and leaves the persisted state unchanged. -/
theorem malformed_json_noop (st : ChatState) (oracle : AiOracle) :
    (onMessage st none oracle).out = [] ∧
    (onMessage st none oracle).calls = [] ∧
    finalState st (onMessage st none oracle) = st :=
  ⟨rfl, rfl, rfl⟩

/-- C6: if the primary model call fails and the failure is not the
vision-license condition (or no image was attached), `onMessage`
persists no assistant turn (the final history is the captured sequence
plus only the user turn), sends the fixed friendly retry text wrapped
in both an `assistant_done` and a plain `assistant` frame, and nothing
else. -/
theorem generic_failure_abandons_turn (st : ChatState) (content : String)
    (imageField : Option JsVal) (oracle : AiOracle) (msg : String)
    (hvalid : ¬(trimWs content = "" ∧ validatedImage imageField = none))
    (herr : oracle (primaryCall st content imageField) = Except.error msg)
    (hno : validatedImage imageField = none ∨ containsSubstring msg licenseMarker = false) :
    finalState st (onMessage st (some (Payload.user (some (JsVal.str content)) imageField)) oracle)
        = { messages := st.messages ++ [userTurn content imageField] } ∧
    countRole Role.assistant
        (finalState st (onMessage st (some (Payload.user (some (JsVal.str content)) imageField)) oracle)).messages
      = countRole Role.assistant st.messages ∧
    (onMessage st (some (Payload.user (some (JsVal.str content)) imageField)) oracle).out
      = [Outbound.assistantDone genericErrorText, Outbound.assistant genericErrorText] := by
  rw [onMessage_user, handleUser_generic_err st content imageField oracle msg hvalid herr hno]
  refine ⟨?_, ?_, rfl⟩
  · simp [finalState, errorResult]
  · simp [finalState, errorResult, countRole, List.filter_append, userTurn]

theorem generic_failure_abandons_turn_witness :
    ¬(trimWs "hi" = "" ∧ validatedImage none = none) ∧
    errOracle "boom" (primaryCall { messages := [] } "hi" none) = Except.error "boom" ∧
    (validatedImage none = none ∨ containsSubstring "boom" licenseMarker = false) ∧
    (finalState { messages := [] }
        (onMessage { messages := [] } (some (Payload.user (some (JsVal.str "hi")) none)) (errOracle "boom"))
        = { messages := ([] : List ChatMessage) ++ [userTurn "hi" none] } ∧
      countRole Role.assistant
          (finalState { messages := [] }
            (onMessage { messages := [] } (some (Payload.user (some (JsVal.str "hi")) none)) (errOracle "boom"))).messages
        = countRole Role.assistant ([] : List ChatMessage) ∧
      (onMessage { messages := [] } (some (Payload.user (some (JsVal.str "hi")) none)) (errOracle "boom")).out
        = [Outbound.assistantDone genericErrorText, Outbound.assistant genericErrorText]) :=
  ⟨by decide, rfl, Or.inl rfl,
    generic_failure_abandons_turn { messages := [] } "hi" none (errOracle "boom") "boom"
      (by decide) rfl (Or.inl rfl)⟩

/-- C7: if the primary call fails with an error message containing the
vision-license marker and a valid image was attached, `onMessage`
retries exactly once, against the secondary vision model with a single
flattened prompt (system instruction plus user text) and the raw image;
if that fallback also fails, the client is sent the fixed
license-acknowledgment instruction text. -/
theorem vision_license_fallback (st : ChatState) (content : String)
    (imageField : Option JsVal) (oracle : AiOracle) (msg u : String)
    (himg : validatedImage imageField = some u)
    (herr : oracle (primaryCall st content imageField) = Except.error msg)
    (hmark : containsSubstring msg licenseMarker = true) :
    (onMessage st (some (Payload.user (some (JsVal.str content)) imageField)) oracle).calls
      = [primaryCall st content imageField,
         { model := VISION_FALLBACK_MODEL,
           request := AiRequest.promptImage
             (systemPrompt ++ "\n\nUser request: " ++
               (if trimWs content = "" then "Describe this image." else trimWs content)) u }] ∧
    (∀ e, oracle (fallbackCall content u) = Except.error e →
      (onMessage st (some (Payload.user (some (JsVal.str content)) imageField)) oracle).out
        = [Outbound.assistantDone licenseErrorText, Outbound.assistant licenseErrorText]) := by
  rw [onMessage_user]
  cases hf : oracle (fallbackCall content u) with
  | ok t =>
    rw [handleUser_fallback_ok st content imageField oracle msg u t himg herr hmark hf]
    refine ⟨rfl, ?_⟩
    intro e he
    exact Except.noConfusion he
  | error e =>
    rw [handleUser_fallback_err st content imageField oracle msg u e himg herr hmark hf]
    exact ⟨rfl, fun _ _ => rfl⟩

theorem vision_license_fallback_witness :
    validatedImage (some (JsVal.str "data:image/png;base64,AAAA")) = some "data:image/png;base64,AAAA" ∧
    errOracle "please submit the prompt \x27agree\x27 once"
        (primaryCall { messages := [] } "hi" (some (JsVal.str "data:image/png;base64,AAAA")))
      = Except.error "please submit the prompt \x27agree\x27 once" ∧
    containsSubstring "please submit the prompt \x27agree\x27 once" licenseMarker = true ∧
    ((onMessage { messages := [] }
        (some (Payload.user (some (JsVal.str "hi")) (some (JsVal.str "data:image/png;base64,AAAA"))))
        (errOracle "please submit the prompt \x27agree\x27 once")).calls
      = [primaryCall { messages := [] } "hi" (some (JsVal.str "data:image/png;base64,AAAA")),
         { model := VISION_FALLBACK_MODEL,
           request := AiRequest.promptImage
             (systemPrompt ++ "\n\nUser request: " ++
               (if trimWs "hi" = "" then "Describe this image." else trimWs "hi"))
             "data:image/png;base64,AAAA" }] ∧
      (∀ e, errOracle "please submit the prompt \x27agree\x27 once"
            (fallbackCall "hi" "data:image/png;base64,AAAA") = Except.error e →
        (onMessage { messages := [] }
            (some (Payload.user (some (JsVal.str "hi")) (some (JsVal.str "data:image/png;base64,AAAA"))))
            (errOracle "please submit the prompt \x27agree\x27 once")).out
          = [Outbound.assistantDone licenseErrorText, Outbound.assistant licenseErrorText])) :=
  ⟨by decide, rfl, by decide,
    vision_license_fallback { messages := [] } "hi"
      (some (JsVal.str "data:image/png;base64,AAAA"))
      (errOracle "please submit the prompt \x27agree\x27 once")
      "please submit the prompt \x27agree\x27 once" "data:image/png;base64,AAAA"
      (by decide) rfl (by decide)⟩

/-- C8: every valid user message is first sent to exactly one primary
call; it targets the vision model when a valid image is attached, and
otherwise the text-only model with every rendered context message plain
text (no image parts), regardless of images carried by earlier turns. -/
theorem model_routing (st : ChatState) (content : String) (imageField : Option JsVal)
    (oracle : AiOracle)
    (hvalid : ¬(trimWs content = "" ∧ validatedImage imageField = none)) :
    (onMessage st (some (Payload.user (some (JsVal.str content)) imageField)) oracle).calls.head?
      = some (primaryCall st content imageField) ∧
    (validatedImage imageField ≠ none → (primaryCall st content imageField).model = VISION_MODEL) ∧
    (validatedImage imageField = none →
      (primaryCall st content imageField).model = TEXT_MODEL ∧
      ∃ msgs, (primaryCall st content imageField).request = AiRequest.chat msgs 512 ∧
        ∀ m ∈ msgs, m.isPlain = true) := by
  refine ⟨?_, ?_, ?_⟩
  · rw [onMessage_user]
    cases hp : oracle (primaryCall st content imageField) with
    | ok t => rw [handleUser_ok st content imageField oracle t hvalid hp]; rfl
    | error msg =>
      cases hv : validatedImage imageField with
      | none =>
        rw [handleUser_generic_err st content imageField oracle msg hvalid hp (Or.inl hv)]
        rfl
      | some u =>
        by_cases hm : containsSubstring msg licenseMarker = true
        · cases hf : oracle (fallbackCall content u) with
          | ok t =>
            rw [handleUser_fallback_ok st content imageField oracle msg u t hv hp hm hf]
            rfl
          | error e =>
            rw [handleUser_fallback_err st content imageField oracle msg u e hv hp hm hf]
            rfl
        · rw [handleUser_generic_err st content imageField oracle msg hvalid hp
            (Or.inr (by simpa using hm))]
          rfl
  · intro hv
    simp only [primaryCall]
    rw [if_pos (Option.isSome_iff_ne_none.mpr hv)]
  · intro hv
    simp only [primaryCall]
    rw [if_neg (by simp [hv]), if_neg (by simp [hv])]
    refine ⟨rfl, _, rfl, ?_⟩
    intro m hm
    rcases List.mem_cons.mp hm with rfl | hm
    · rfl
    · rcases List.mem_map.mp hm with ⟨x, -, rfl⟩
      rfl

theorem model_routing_witness :
    ¬(trimWs "hi" = "" ∧ validatedImage (none : Option JsVal) = none) ∧
    ((onMessage imageHistoryState (some (Payload.user (some (JsVal.str "hi")) none)) (okOracle "ok")).calls.head?
        = some (primaryCall imageHistoryState "hi" none) ∧
      (validatedImage (none : Option JsVal) ≠ none →
        (primaryCall imageHistoryState "hi" none).model = VISION_MODEL) ∧
      (validatedImage (none : Option JsVal) = none →
        (primaryCall imageHistoryState "hi" none).model = TEXT_MODEL ∧
        ∃ msgs, (primaryCall imageHistoryState "hi" none).request = AiRequest.chat msgs 512 ∧
          ∀ m ∈ msgs, m.isPlain = true)) :=
  ⟨by decide, model_routing imageHistoryState "hi" none (okOracle "ok") (by decide)⟩

theorem storageAfter_success (st : ChatState) (next : List ChatMessage) (calls : List AiCall)
    (t : String) (concurrent : List (List ChatMessage)) :
    storageAfter st (successResult next calls t) concurrent
      = next ++ [{ role := Role.assistant, content := t, imageDataUrl := none }] := by
  simp only [storageAfter, successResult]
  rw [show (([next, next ++ [{ role := Role.assistant, content := t, imageDataUrl := none }]] : List (List ChatMessage)).take 1)
      = [next] from rfl,
    show (([next, next ++ [{ role := Role.assistant, content := t, imageDataUrl := none }]] : List (List ChatMessage)).drop 1)
      = [next ++ [{ role := Role.assistant, content := t, imageDataUrl := none }]] from rfl]
  rw [show [next] ++ concurrent ++ [next ++ [{ role := Role.assistant, content := t, imageDataUrl := none }]]
      = ([next] ++ concurrent) ++ [next ++ [{ role := Role.assistant, content := t, imageDataUrl := none }]]
      from by simp]
  exact List.getLastD_concat _ _ _

/-- C3: the success path (the one that persists twice) persists exactly
the pre-call captured sequence (prior state plus the new user turn)
with one assistant turn appended, and the final persisted value is
independent of any concurrent writes landing between the two persists:
a reset processed during the model call is overwritten, re-creating the
user+assistant pair. -/
theorem success_persist_captures_precall (st : ChatState) (content : String)
    (imageField : Option JsVal) (oracle : AiOracle)
    (hvalid : ¬(trimWs content = "" ∧ validatedImage imageField = none))
    (hsucc : (onMessage st (some (Payload.user (some (JsVal.str content)) imageField)) oracle).sets.length = 2) :
    ∃ t, (userTurn content imageField).role = Role.user ∧
      (onMessage st (some (Payload.user (some (JsVal.str content)) imageField)) oracle).sets
        = [st.messages ++ [userTurn content imageField],
           st.messages ++ [userTurn content imageField,
             { role := Role.assistant, content := t, imageDataUrl := none }]] ∧
      ∀ concurrent : List (List ChatMessage),
        storageAfter st (onMessage st (some (Payload.user (some (JsVal.str content)) imageField)) oracle) concurrent
          = st.messages ++ [userTurn content imageField,
              { role := Role.assistant, content := t, imageDataUrl := none }] := by
  rw [onMessage_user] at hsucc ⊢
  cases hp : oracle (primaryCall st content imageField) with
  | ok t =>
    rw [handleUser_ok st content imageField oracle t hvalid hp]
    refine ⟨t, rfl, by simp [successResult, List.append_assoc], ?_⟩
    intro concurrent
    rw [storageAfter_success]
    simp
  | error msg =>
    cases hv : validatedImage imageField with
    | none =>
      rw [handleUser_generic_err st content imageField oracle msg hvalid hp (Or.inl hv)] at hsucc
      simp [errorResult] at hsucc
    | some u =>
      by_cases hm : containsSubstring msg licenseMarker = true
      · cases hf : oracle (fallbackCall content u) with
        | ok t =>
          rw [handleUser_fallback_ok st content imageField oracle msg u t hv hp hm hf]
          refine ⟨t, rfl, by simp [successResult, List.append_assoc], ?_⟩
          intro concurrent
          rw [storageAfter_success]
          simp
        | error e =>
          rw [handleUser_fallback_err st content imageField oracle msg u e hv hp hm hf] at hsucc
          simp [errorResult] at hsucc
      · rw [handleUser_generic_err st content imageField oracle msg hvalid hp
          (Or.inr (by simpa using hm))] at hsucc
        simp [errorResult] at hsucc

theorem success_persist_captures_precall_witness :
    ¬(trimWs "hi" = "" ∧ validatedImage none = none) ∧
    (onMessage { messages := [] } (some (Payload.user (some (JsVal.str "hi")) none)) (okOracle "ok")).sets.length = 2 ∧
    ∃ t, (userTurn "hi" none).role = Role.user ∧
      (onMessage { messages := [] } (some (Payload.user (some (JsVal.str "hi")) none)) (okOracle "ok")).sets
        = [([] : List ChatMessage) ++ [userTurn "hi" none],
           ([] : List ChatMessage) ++ [userTurn "hi" none,
             { role := Role.assistant, content := t, imageDataUrl := none }]] ∧
      ∀ concurrent : List (List ChatMessage),
        storageAfter { messages := [] }
            (onMessage { messages := [] } (some (Payload.user (some (JsVal.str "hi")) none)) (okOracle "ok")) concurrent
          = ([] : List ChatMessage) ++ [userTurn "hi" none,
              { role := Role.assistant, content := t, imageDataUrl := none }] :=
  ⟨by decide, by decide,
    success_persist_captures_precall { messages := [] } "hi" none (okOracle "ok")
      (by decide) (by decide)⟩

/-- C2: on the primary-success path the emitted stream is one
`assistant_start`, then the chunks of `chunkByWords t 3` in order, then
one `assistant_done` and one `assistant` frame carrying the full text;
and `chunkByWords _ 3` is exactly the grouping of the
whitespace-delimited words into consecutive groups of up to 3, each
joined by single spaces with a trailing space, with the whole text as a
single chunk when there are no words. -/
theorem reply_stream_shape (st : ChatState) (content : String) (imageField : Option JsVal)
    (oracle : AiOracle) (t : String)
    (hvalid : ¬(trimWs content = "" ∧ validatedImage imageField = none))
    (hok : oracle (primaryCall st content imageField) = Except.ok t) :
    (onMessage st (some (Payload.user (some (JsVal.str content)) imageField)) oracle).out
      = Outbound.assistantStart :: (chunkByWords t 3).map Outbound.assistantChunk
          ++ [Outbound.assistantDone t, Outbound.assistant t] ∧
    (∀ s : String, wordsOf s.data = [] → chunkByWords s 3 = [s]) ∧
    (∀ s : String, wordsOf s.data ≠ [] → ∀ i : Nat,
      (chunkByWords s 3)[i]? =
        if 3 * i < (wordsOf s.data).length
        then some (String.mk (joinSpace (((wordsOf s.data).drop (3 * i)).take 3) ++ [' ']))
        else none) := by
  refine ⟨?_, ?_, ?_⟩
  · rw [onMessage_user, handleUser_ok st content imageField oracle t hvalid hok]
    rfl
  · intro s hs
    rw [show (3 : Nat) = 2 + 1 from rfl]
    simp only [chunkByWords]
    rw [hs, chunkGroups_nil]
    rfl
  · intro s hs i
    rw [show (3 : Nat) = 2 + 1 from rfl]
    simp only [chunkByWords]
    rw [if_neg (by simp [List.isEmpty_iff, chunkGroups_ne_nil 2 hs])]
    rw [List.getElem?_map, chunkGroups_getElem? 2 (wordsOf s.data) i]
    rw [show (2 + 1) * i = 3 * i from by ring]
    by_cases hi : 3 * i < (wordsOf s.data).length
    · rw [if_pos hi, if_pos hi]
      rfl
    · rw [if_neg hi, if_neg hi]
      rfl

theorem reply_stream_shape_witness :
    ¬(trimWs "hi" = "" ∧ validatedImage none = none) ∧
    okOracle "one two three four five six seven" (primaryCall { messages := [] } "hi" none)
      = Except.ok "one two three four five six seven" ∧
    ((onMessage { messages := [] } (some (Payload.user (some (JsVal.str "hi")) none))
        (okOracle "one two three four five six seven")).out
      = Outbound.assistantStart ::
          (chunkByWords "one two three four five six seven" 3).map Outbound.assistantChunk
          ++ [Outbound.assistantDone "one two three four five six seven",
              Outbound.assistant "one two three four five six seven"] ∧
      (∀ s : String, wordsOf s.data = [] → chunkByWords s 3 = [s]) ∧
      (∀ s : String, wordsOf s.data ≠ [] → ∀ i : Nat,
        (chunkByWords s 3)[i]? =
          if 3 * i < (wordsOf s.data).length
          then some (String.mk (joinSpace (((wordsOf s.data).drop (3 * i)).take 3) ++ [' ']))
          else none)) :=
  ⟨by decide, rfl,
    reply_stream_shape { messages := [] } "hi" none
      (okOracle "one two three four five six seven") "one two three four five six seven"
      (by decide) rfl⟩

theorem isValidUser_elim {p : Option Payload} (h : isValidUser p = true) :
    ∃ content imageField, p = some (Payload.user (some (JsVal.str content)) imageField) ∧
      ¬(trimWs content = "" ∧ validatedImage imageField = none) := by
  match p with
  | none => exact absurd h (by simp [isValidUser])
  | some Payload.reset => exact absurd h (by simp [isValidUser])
  | some Payload.other => exact absurd h (by simp [isValidUser])
  | some (Payload.user none i) => exact absurd h (by simp [isValidUser])
  | some (Payload.user (some JsVal.nonString) i) => exact absurd h (by simp [isValidUser])
  | some (Payload.user (some (JsVal.str c)) i) =>
    refine ⟨c, i, rfl, ?_⟩
    rintro ⟨h1, h2⟩
    simp [isValidUser, h1, h2] at h

theorem countRole_append (r : Role) (l1 l2 : List ChatMessage) :
    countRole r (l1 ++ l2) = countRole r l1 + countRole r l2 := by
  simp [countRole, List.filter_append]

theorem countRole_userTurn (content : String) (imageField : Option JsVal) :
    countRole Role.user [userTurn content imageField] = 1 ∧
    countRole Role.assistant [userTurn content imageField] = 0 := by
  constructor
  · simp [countRole, userTurn]
  · simp [countRole, userTurn]

theorem countRole_assistantTurn (t : String) :
    countRole Role.user [{ role := Role.assistant, content := t, imageDataUrl := none }] = 0 ∧
    countRole Role.assistant [{ role := Role.assistant, content := t, imageDataUrl := none }] = 1 := by
  constructor
  · simp [countRole]
  · simp [countRole]

/-- Per-step count change for a valid user message: the user count
rises by exactly one; the assistant count rises by zero or one, and by
exactly one whenever the oracle never throws. -/
theorem valid_step_counts (st : ChatState) (p : Option Payload) (oracle : AiOracle)
    (h : isValidUser p = true) :
    countRole Role.user (finalState st (onMessage st p oracle)).messages
        = countRole Role.user st.messages + 1 ∧
    countRole Role.assistant (finalState st (onMessage st p oracle)).messages
        ≤ countRole Role.assistant st.messages + 1 ∧
    ((∀ c e, oracle c ≠ Except.error e) →
      countRole Role.assistant (finalState st (onMessage st p oracle)).messages
        = countRole Role.assistant st.messages + 1) := by
  obtain ⟨content, imageField, rfl, hvalid⟩ := isValidUser_elim h
  rw [onMessage_user]
  cases hp : oracle (primaryCall st content imageField) with
  | ok t =>
    rw [handleUser_ok st content imageField oracle t hvalid hp]
    have hfin : (finalState st (successResult (st.messages ++ [userTurn content imageField])
        [primaryCall st content imageField] t)).messages
        = st.messages ++ [userTurn content imageField]
            ++ [{ role := Role.assistant, content := t, imageDataUrl := none }] := by
      simp [finalState, successResult]
    rw [hfin]
    simp only [countRole_append, (countRole_userTurn content imageField).1,
      (countRole_userTurn content imageField).2, (countRole_assistantTurn t).1,
      (countRole_assistantTurn t).2]
    refine ⟨?_, ?_, fun _ => ?_⟩ <;> trivial
  | error msg =>
    have hgen : ∀ calls txt,
        (finalState st (errorResult (st.messages ++ [userTurn content imageField]) calls txt)).messages
          = st.messages ++ [userTurn content imageField] := by
      intro calls txt
      simp [finalState, errorResult]
    have hcontra : (∀ c e, oracle c ≠ Except.error e) → False := by
      intro hall
      exact hall (primaryCall st content imageField) msg hp
    cases hv : validatedImage imageField with
    | none =>
      rw [handleUser_generic_err st content imageField oracle msg hvalid hp (Or.inl hv), hgen]
      simp only [countRole_append, (countRole_userTurn content imageField).1,
        (countRole_userTurn content imageField).2]
      refine ⟨?_, ?_, fun hall => (hcontra hall).elim⟩ <;> first | trivial | omega
    | some u =>
      by_cases hm : containsSubstring msg licenseMarker = true
      · cases hf : oracle (fallbackCall content u) with
        | ok t =>
          rw [handleUser_fallback_ok st content imageField oracle msg u t hv hp hm hf]
          have hfin : (finalState st (successResult (st.messages ++ [userTurn content imageField])
              [primaryCall st content imageField, fallbackCall content u] t)).messages
              = st.messages ++ [userTurn content imageField]
                  ++ [{ role := Role.assistant, content := t, imageDataUrl := none }] := by
            simp [finalState, successResult]
          rw [hfin]
          simp only [countRole_append, (countRole_userTurn content imageField).1,
            (countRole_userTurn content imageField).2, (countRole_assistantTurn t).1,
            (countRole_assistantTurn t).2]
          refine ⟨?_, ?_, fun _ => ?_⟩ <;> trivial
        | error e =>
          rw [handleUser_fallback_err st content imageField oracle msg u e hv hp hm hf, hgen]
          simp only [countRole_append, (countRole_userTurn content imageField).1,
            (countRole_userTurn content imageField).2]
          refine ⟨?_, ?_, fun hall => (hcontra hall).elim⟩ <;> first | trivial | omega
      · rw [handleUser_generic_err st content imageField oracle msg hvalid hp
          (Or.inr (by simpa using hm)), hgen]
        simp only [countRole_append, (countRole_userTurn content imageField).1,
          (countRole_userTurn content imageField).2]
        refine ⟨?_, ?_, fun hall => (hcontra hall).elim⟩ <;> first | trivial | omega

theorem processAll_counts (ps : List (Option Payload)) (oracle : AiOracle) (st : ChatState)
    (hv : ∀ p ∈ ps, isValidUser p = true) :
    countRole Role.user (processAll ps oracle st).messages
        = countRole Role.user st.messages + ps.length ∧
    countRole Role.assistant (processAll ps oracle st).messages
        ≤ countRole Role.assistant st.messages + ps.length ∧
    ((∀ c e, oracle c ≠ Except.error e) →
      countRole Role.assistant (processAll ps oracle st).messages
        = countRole Role.assistant st.messages + ps.length) := by
  induction ps generalizing st with
  | nil =>
    refine ⟨?_, ?_, fun _ => ?_⟩ <;> simp [processAll]
  | cons p ps ih =>
    have hp : isValidUser p = true := hv p (by simp)
    have hps : ∀ q ∈ ps, isValidUser q = true := fun q hq => hv q (by simp [hq])
    obtain ⟨hstep1, hstep2, hstep3⟩ := valid_step_counts st p oracle hp
    obtain ⟨ih1, ih2, ih3⟩ := ih (finalState st (onMessage st p oracle)) hps
    simp only [processAll, List.length_cons]
    refine ⟨?_, ?_, ?_⟩
    · rw [ih1, hstep1]
      omega
    · calc countRole Role.assistant (processAll ps oracle (finalState st (onMessage st p oracle))).messages
          ≤ countRole Role.assistant (finalState st (onMessage st p oracle)).messages + ps.length := ih2
        _ ≤ countRole Role.assistant st.messages + 1 + ps.length := by omega
        _ = countRole Role.assistant st.messages + (ps.length + 1) := by omega
    · intro hall
      rw [ih3 hall, hstep3 hall]
      omega

/-- C1: processing any sequence of `N` valid user messages from the
empty history (no resets interleaved) leaves exactly `N` user turns and
at most `N` assistant turns persisted, with exactly `N` assistant turns
whenever no model call failed. -/
theorem persisted_history_counts (ps : List (Option Payload)) (oracle : AiOracle)
    (hv : ∀ p ∈ ps, isValidUser p = true) :
    countRole Role.user (processAll ps oracle { messages := [] }).messages = ps.length ∧
    countRole Role.assistant (processAll ps oracle { messages := [] }).messages ≤ ps.length ∧
    ((∀ c e, oracle c ≠ Except.error e) →
      countRole Role.assistant (processAll ps oracle { messages := [] }).messages = ps.length) := by
  have h := processAll_counts ps oracle { messages := [] } hv
  simpa [countRole] using h

theorem persisted_history_counts_witness :
    (∀ p ∈ [some (Payload.user (some (JsVal.str "one")) none),
             some (Payload.user (some (JsVal.str "two")) none)], isValidUser p = true) ∧
    (countRole Role.user
        (processAll [some (Payload.user (some (JsVal.str "one")) none),
                     some (Payload.user (some (JsVal.str "two")) none)]
          (okOracle "ok") { messages := [] }).messages
      = ([some (Payload.user (some (JsVal.str "one")) none),
          some (Payload.user (some (JsVal.str "two")) none)] : List (Option Payload)).length ∧
     countRole Role.assistant
        (processAll [some (Payload.user (some (JsVal.str "one")) none),
                     some (Payload.user (some (JsVal.str "two")) none)]
          (okOracle "ok") { messages := [] }).messages
      ≤ ([some (Payload.user (some (JsVal.str "one")) none),
          some (Payload.user (some (JsVal.str "two")) none)] : List (Option Payload)).length ∧
     ((∀ c e, okOracle "ok" c ≠ Except.error e) →
       countRole Role.assistant
          (processAll [some (Payload.user (some (JsVal.str "one")) none),
                       some (Payload.user (some (JsVal.str "two")) none)]
            (okOracle "ok") { messages := [] }).messages
        = ([some (Payload.user (some (JsVal.str "one")) none),
            some (Payload.user (some (JsVal.str "two")) none)] : List (Option Payload)).length)) :=
  ⟨by decide,
    persisted_history_counts
      [some (Payload.user (some (JsVal.str "one")) none),
       some (Payload.user (some (JsVal.str "two")) none)]
      (okOracle "ok") (by decide)⟩

end AgentChat
